import Mathlib

/-!
Shallow embedding of the assertion subsystem and device-handle lifecycle of
the `libfido2-rs` wrapper (src/src/assertion.rs and src/src/device.rs).

The native libfido2 engine is modelled abstractly: each FFI entry point is a
field of an engine record giving the return code the engine produces for a
given input, and the state of a native `fido_assert` handle is an explicit
record that a successful setter call updates.  Effectful call sequences are
embedded with an explicit trace of the FFI calls that were issued, so that
ordering and short-circuiting of the wrapper code are provable statements.
-/

namespace Fido

/-- Byte strings handed through the FFI boundary (`&[u8]`). -/
abbrev Bytes := List Nat

/-- `FIDO_OK`, the success return code of the libfido2 engine. -/
def FIDO_OK : Int := 0

/-- `FidoError(raw_code)`: the wrapper's error type carries the raw engine
return code unchanged. -/
structure FidoError where
  code : Int
deriving DecidableEq

/-- `Result<T, FidoError>` of the wrapper. -/
abbrev FidoResult (α : Type) := Except FidoError α

/-- Bit value of `AssertionOptions::USER_PRESENCE`. -/
def AssertionOptions.USER_PRESENCE : Nat := 1

/-- Bit value of `AssertionOptions::USER_VERIFICATION`. -/
def AssertionOptions.USER_VERIFICATION : Nat := 2

/-- `AssertionOptions` is a u8 bitflags value. -/
abbrev AssertionOptions := Nat

/-- `AssertionOptions::empty()`. -/
def AssertionOptions.empty : AssertionOptions := 0

/-- `bitflags` `contains`: all bits of `f` are set in `o`. -/
def AssertionOptions.contains (o f : Nat) : Bool := o &&& f == f

/-- `AssertionCreationData`: the borrowed parameter bundle used once to
populate a request (`allowed_credential_ids : Option<&[&[u8]]>`,
`client_data_hash : &[u8]`, `relying_party_id : &CStr`, `options`). -/
structure AssertionCreationData where
  allowed_credential_ids : Option (List Bytes)
  client_data_hash : Bytes
  relying_party_id : String
  options : AssertionOptions

/-- State of a native `fido_assert` handle during the request phase.  A
freshly allocated handle has every field empty; each successful engine
setter fills (or, for the allow list, appends to) the corresponding field. -/
structure NativeAssert where
  rp : Option String
  clientDataHash : Option Bytes
  allowedCreds : List Bytes
  options : Option (Bool × Bool)
deriving DecidableEq

/-- A freshly allocated, uninitialized `fido_assert` handle. -/
def NativeAssert.uninit : NativeAssert :=
  { rp := none, clientDataHash := none, allowedCreds := [], options := none }

/-- Abstract model of the engine's setter entry points: for each call, the
return code the engine produces for the given argument. -/
structure FidoEngine where
  rpCode : String → Int
  clientDataHashCode : Bytes → Int
  allowCredCode : Bytes → Int
  optionsCode : Bool → Bool → Int

/-- One FFI setter invocation on a `fido_assert` handle, with its argument. -/
inductive SetterCall where
  | setRp (rp : String)
  | setClientDataHash (hash : Bytes)
  | allowCred (id : Bytes)
  | setOptions (up uv : Bool)
deriving DecidableEq

/-- The engine return code for one setter call. -/
def codeOf (e : FidoEngine) : SetterCall → Int
  | SetterCall.setRp rp => e.rpCode rp
  | SetterCall.setClientDataHash h => e.clientDataHashCode h
  | SetterCall.allowCred id => e.allowCredCode id
  | SetterCall.setOptions up uv => e.optionsCode up uv

/-- The engine's state update for one successful setter call. -/
def applyCall : SetterCall → NativeAssert → NativeAssert
  | SetterCall.setRp rp, a => { a with rp := some rp }
  | SetterCall.setClientDataHash h, a => { a with clientDataHash := some h }
  | SetterCall.allowCred id, a => { a with allowedCreds := a.allowedCreds ++ [id] }
  | SetterCall.setOptions up uv, a => { a with options := some (up, uv) }

/-- `Assertion::set_relying_party_id`: one `fido_assert_set_rp` call;
`FIDO_OK` maps to `Ok`, any other code to `Err(FidoError(code))`. -/
def Assertion.set_relying_party_id (e : FidoEngine) (a : NativeAssert) (rp : String) :
    FidoResult NativeAssert × List SetterCall :=
  let code := e.rpCode rp
  if code = FIDO_OK then (Except.ok { a with rp := some rp }, [SetterCall.setRp rp])
  else (Except.error ⟨code⟩, [SetterCall.setRp rp])

/-- `Assertion::set_client_data_hash`: one `fido_assert_set_clientdata_hash`
call. -/
def Assertion.set_client_data_hash (e : FidoEngine) (a : NativeAssert) (h : Bytes) :
    FidoResult NativeAssert × List SetterCall :=
  let code := e.clientDataHashCode h
  if code = FIDO_OK then
    (Except.ok { a with clientDataHash := some h }, [SetterCall.setClientDataHash h])
  else (Except.error ⟨code⟩, [SetterCall.setClientDataHash h])

/-- `Assertion::add_allowed_credential_id`: one `fido_assert_allow_cred`
call; on success the engine appends the id to the handle's allow list. -/
def Assertion.add_allowed_credential_id (e : FidoEngine) (a : NativeAssert) (id : Bytes) :
    FidoResult NativeAssert × List SetterCall :=
  let code := e.allowCredCode id
  if code = FIDO_OK then
    (Except.ok { a with allowedCreds := a.allowedCreds ++ [id] }, [SetterCall.allowCred id])
  else (Except.error ⟨code⟩, [SetterCall.allowCred id])

/-- `Assertion::set_options`: one `fido_assert_set_options` call whose two
boolean arguments are `options.contains(USER_PRESENCE)` and
`options.contains(USER_VERIFICATION)`. -/
def Assertion.set_options (e : FidoEngine) (a : NativeAssert) (o : AssertionOptions) :
    FidoResult NativeAssert × List SetterCall :=
  let up := AssertionOptions.contains o AssertionOptions.USER_PRESENCE
  let uv := AssertionOptions.contains o AssertionOptions.USER_VERIFICATION
  let code := e.optionsCode up uv
  if code = FIDO_OK then (Except.ok { a with options := some (up, uv) }, [SetterCall.setOptions up uv])
  else (Except.error ⟨code⟩, [SetterCall.setOptions up uv])

/-- Sequencing of traced fallible steps: exactly the `?` operator of the
source, with the FFI call trace accumulated.  An error stops the chain and
the later step issues no calls. -/
def trBind (r : FidoResult NativeAssert × List SetterCall)
    (f : NativeAssert → FidoResult NativeAssert × List SetterCall) :
    FidoResult NativeAssert × List SetterCall :=
  match r with
  | (Except.error err, t) => (Except.error err, t)
  | (Except.ok a, t) => ((f a).1, t ++ (f a).2)

/-- The `for allowed in allowed` loop body of `AssertionCreator::new`:
add each allowed credential id in list order, stopping at the first error. -/
def addAllowedAll (e : FidoEngine) : List Bytes → NativeAssert →
    FidoResult NativeAssert × List SetterCall
  | [], a => (Except.ok a, [])
  | id :: rest, a =>
      trBind (Assertion.add_allowed_credential_id e a id) (addAllowedAll e rest)

/-- `AssertionCreator::new`: applies, in order, set relying-party id, set
client-data hash, each allowed credential id (when the list is present),
then set options; each step short-circuits on failure via `?`. -/
def AssertionCreator.new (e : FidoEngine) (a : NativeAssert) (d : AssertionCreationData) :
    FidoResult NativeAssert × List SetterCall :=
  trBind (Assertion.set_relying_party_id e a d.relying_party_id) (fun a1 =>
  trBind (Assertion.set_client_data_hash e a1 d.client_data_hash) (fun a2 =>
  trBind (match d.allowed_credential_ids with
          | some allowed => addAllowedAll e allowed a2
          | none => (Except.ok a2, [])) (fun a3 =>
  Assertion.set_options e a3 d.options)))

/-- Reference runner: issue the listed setter calls one after the other,
stopping at the first call whose engine code is not `FIDO_OK`. -/
def runCalls (e : FidoEngine) : List SetterCall → NativeAssert →
    FidoResult NativeAssert × List SetterCall
  | [], a => (Except.ok a, [])
  | c :: cs, a =>
      let code := codeOf e c
      if code = FIDO_OK then
        let r := runCalls e cs (applyCall c a)
        (r.1, c :: r.2)
      else (Except.error ⟨code⟩, [c])

/-- The full call sequence `AssertionCreator::new` issues when nothing
fails: relying-party id, client-data hash, each allowed id in order, then
the option flags. -/
def fullCalls (d : AssertionCreationData) : List SetterCall :=
  SetterCall.setRp d.relying_party_id ::
  SetterCall.setClientDataHash d.client_data_hash ::
  ((d.allowed_credential_ids.getD []).map SetterCall.allowCred ++
    [SetterCall.setOptions
      (AssertionOptions.contains d.options AssertionOptions.USER_PRESENCE)
      (AssertionOptions.contains d.options AssertionOptions.USER_VERIFICATION)])

/-- A caller-supplied public key: its credential type tag (passed to
`fido_assert_verify` as a C int) and the key material itself. -/
structure PublicKey where
  credential_type : Int
  key : Bytes
deriving DecidableEq

/-- State of a device-populated native `fido_assert` handle: the statement
count reported by `fido_assert_count`, the shared client-data hash, the
per-index accessors, and the outcome code of `fido_assert_verify` for a
given public key and statement index. -/
structure PopulatedAssert where
  count : Nat
  clientDataHash : Bytes
  authData : Nat → Bytes
  hmacSecret : Nat → Option Bytes
  signature : Nat → Bytes
  userId : Nat → Option Bytes
  userName : Nat → Option String
  userDisplayName : Nat → Option String
  userImageUri : Nat → Option String
  verifyCode : PublicKey → Nat → Int

/-- `Statement`: the borrowed per-index view assembled by `Assertion::iter`. -/
structure Statement where
  auth_data : Bytes
  client_data_hash : Bytes
  hmac_secret : Option Bytes
  signature : Bytes
  user_id : Option Bytes
  user_name : Option String
  user_display_name : Option String
  user_image_uri : Option String
deriving DecidableEq

/-- `Assertion::len`: `fido_assert_count` on the native handle. -/
def Assertion.len (h : PopulatedAssert) : Nat := h.count

/-- The body of the closure in `Assertion::iter`: read every per-index
accessor of the native handle at index `i` (plus the shared client-data
hash) into a `Statement`. -/
def readStatement (h : PopulatedAssert) (i : Nat) : Statement :=
  { auth_data := h.authData i
    client_data_hash := h.clientDataHash
    hmac_secret := h.hmacSecret i
    signature := h.signature i
    user_id := h.userId i
    user_name := h.userName i
    user_display_name := h.userDisplayName i
    user_image_uri := h.userImageUri i }

/-- `Assertion::iter`: `(0..self.len()).map(|i| ...)` — one statement per
index, each materialized from the per-index accessors. -/
def Assertion.iter (h : PopulatedAssert) : List Statement :=
  (List.range (Assertion.len h)).map (readStatement h)

/-- The per-index outcome of `fido_assert_verify`: `FIDO_OK` maps to
`Ok(())`, any other code to `Err(FidoError(code))`. -/
def verdict (h : PopulatedAssert) (pk : PublicKey) (i : Nat) : FidoResult Unit :=
  if h.verifyCode pk i = FIDO_OK then Except.ok () else Except.error ⟨h.verifyCode pk i⟩

/-- `Assertion::iter_verified`: `self.iter().enumerate().map(...)`, pairing
statement `i` with the engine's verification outcome for index `i`. -/
def Assertion.iter_verified (h : PopulatedAssert) (pk : PublicKey) :
    List (Statement × FidoResult Unit) :=
  (Assertion.iter h).enum.map (fun p => (p.2, verdict h pk p.1))

/-- `Result::is_ok`. -/
def resultIsOk : FidoResult Unit → Bool
  | Except.ok _ => true
  | Except.error _ => false

/-- Operational embedding of `Iterator::any` over the lazily-evaluated
`iter_verified` sequence: scan the indices starting at `i` for `n` steps,
stop at the first index whose verification code is `FIDO_OK`, and record
the indices for which `fido_assert_verify` was actually invoked. -/
def verifyOneAux (h : PopulatedAssert) (pk : PublicKey) : Nat → Nat → Bool × List Nat
  | _, 0 => (false, [])
  | i, Nat.succ n =>
      if h.verifyCode pk i = FIDO_OK then (true, [i])
      else
        let r := verifyOneAux h pk (i + 1) n
        (r.1, i :: r.2)

/-- `Assertion::verify_one`: `self.iter_verified(pk).any(|(_, r)| r.is_ok())`
with the lazy iterator's short-circuit semantics. -/
def Assertion.verify_one (h : PopulatedAssert) (pk : PublicKey) : Bool :=
  (verifyOneAux h pk 0 (Assertion.len h)).1

/-- The indices at which `verify_one` actually invoked the engine's
verification call. -/
def Assertion.verify_one_calls (h : PopulatedAssert) (pk : PublicKey) : List Nat :=
  (verifyOneAux h pk 0 (Assertion.len h)).2

/-- An FFI call issued by `Drop for Device`. -/
inductive DevCall where
  | close
  | free
deriving DecidableEq

/-- Outcome of a destructor: normal return, or a fatal `assert!` failure. -/
inductive DropOutcome where
  | ok
  | panic
deriving DecidableEq

/-- Abstract model of the engine's teardown entry points for a device:
the return code of `fido_dev_close` and the pointer value that
`fido_dev_free` leaves in the `&mut` slot (`none` models null). -/
structure DevDropEngine where
  closeCode : Int
  freeResult : Option Unit

/-- `Drop for Device`: copy raw pointer, call `fido_dev_close` discarding
its result, call `fido_dev_free(&mut device)`, then `assert!` that the
pointer slot is null — a non-null slot is a fatal panic. -/
def Device.drop (e : DevDropEngine) : DropOutcome × List DevCall :=
  let _device : Option Unit := some ()
  let _closeResult := e.closeCode
  let device := e.freeResult
  (if device.isNone then DropOutcome.ok else DropOutcome.panic, [DevCall.close, DevCall.free])

/-- The FFI call issued by `Drop for Assertion`. -/
inductive AssertCall where
  | assertFree
deriving DecidableEq

/-- Abstract model of `fido_assert_free`: the pointer value it leaves in
the `&mut` slot (`none` models null). -/
structure AssertDropEngine where
  freeResult : Option Unit

/-- `Drop for Assertion`: call `fido_assert_free(&mut assertion)`, then
`assert!` the pointer slot is null. -/
def Assertion.drop (e : AssertDropEngine) : DropOutcome × List AssertCall :=
  let _assertion : Option Unit := some ()
  let assertion := e.freeResult
  (if assertion.isNone then DropOutcome.ok else DropOutcome.panic, [AssertCall.assertFree])

/-- `FIDO_CAP_WINK`. -/
def FIDO_CAP_WINK : Nat := 1

/-- `FIDO_CAP_CBOR`. -/
def FIDO_CAP_CBOR : Nat := 4

/-- `FIDO_CAP_NMSG`. -/
def FIDO_CAP_NMSG : Nat := 8

/-- `CTAPHIDCapabilities`: a u8 bitflags value over WINK, CBOR and NMSG. -/
structure CTAPHIDCapabilities where
  bits : Nat
deriving DecidableEq

/-- `bitflags` `from_bits`: `some` exactly when every set bit of `b` is one
of the three known capability bits. -/
def CTAPHIDCapabilities.from_bits (b : Nat) : Option CTAPHIDCapabilities :=
  if b &&& (FIDO_CAP_WINK ||| FIDO_CAP_CBOR ||| FIDO_CAP_NMSG) = b then some ⟨b⟩ else none

/-- The five raw values the native device accessors report. -/
structure NativeDevInfo where
  protocol : Nat
  major : Nat
  minor : Nat
  build : Nat
  flags : Nat

/-- `CTAPHIDInfo`. -/
structure CTAPHIDInfo where
  protocol : Nat
  major : Nat
  minor : Nat
  build : Nat
  capabilities : CTAPHIDCapabilities
deriving DecidableEq

/-- `Device::ctap_hid_info`: read the five native accessors and decode the
flag byte with `CTAPHIDCapabilities::from_bits(...).expect(...)`; the
`expect` on an unrecognized bit is a fatal panic, modelled by `none`. -/
def Device.ctap_hid_info (d : NativeDevInfo) : Option CTAPHIDInfo :=
  match CTAPHIDCapabilities.from_bits d.flags with
  | some caps =>
      some { protocol := d.protocol, major := d.major, minor := d.minor,
             build := d.build, capabilities := caps }
  | none => none

/-!
Concrete instances used to exercise the theorems on explicit inputs.
-/

/-- An engine that accepts every setter input. -/
def engineOK : FidoEngine :=
  { rpCode := fun _ => 0, clientDataHashCode := fun _ => 0,
    allowCredCode := fun _ => 0, optionsCode := fun _ _ => 0 }

/-- An engine that rejects every client-data hash with raw code 3. -/
def engineHashFail : FidoEngine :=
  { rpCode := fun _ => 0, clientDataHashCode := fun _ => 3,
    allowCredCode := fun _ => 0, optionsCode := fun _ _ => 0 }

/-- An engine that rejects every relying-party id with raw code 7. -/
def engineRpFail : FidoEngine :=
  { rpCode := fun _ => 7, clientDataHashCode := fun _ => 0,
    allowCredCode := fun _ => 0, optionsCode := fun _ _ => 0 }

/-- Creation data with a two-entry allow list and the USER_PRESENCE flag. -/
def dataTwoCreds : AssertionCreationData :=
  { allowed_credential_ids := some [[1], [2]], client_data_hash := [9, 8],
    relying_party_id := "example.com", options := 1 }

/-- Creation data with an empty allow list and the empty option set. -/
def dataNoCreds : AssertionCreationData :=
  { allowed_credential_ids := some [], client_data_hash := [9],
    relying_party_id := "example.com", options := 0 }

/-- A concrete public key. -/
def pkEx : PublicKey := { credential_type := 2, key := [3] }

/-- A populated assertion with two statements whose first statement fails
verification (code 5) and whose second verifies. -/
def popTwo : PopulatedAssert :=
  { count := 2
    clientDataHash := [7]
    authData := fun i => [i]
    hmacSecret := fun _ => none
    signature := fun i => [i + 10]
    userId := fun _ => none
    userName := fun _ => none
    userDisplayName := fun _ => none
    userImageUri := fun _ => none
    verifyCode := fun _ i => if i = 0 then 5 else 0 }

/-- A populated assertion with zero statements. -/
def popEmpty : PopulatedAssert :=
  { count := 0, clientDataHash := [], authData := fun _ => [],
    hmacSecret := fun _ => none, signature := fun _ => [], userId := fun _ => none,
    userName := fun _ => none, userDisplayName := fun _ => none,
    userImageUri := fun _ => none, verifyCode := fun _ _ => 0 }

/-- Device teardown engines agreeing on the freed pointer but reporting
different close codes. -/
def devE1 : DevDropEngine := { closeCode := 7, freeResult := none }

/-- A second device teardown engine with a clean close code. -/
def devE2 : DevDropEngine := { closeCode := 0, freeResult := none }

/-- An assertion teardown engine whose free call nulls the pointer. -/
def assertE1 : AssertDropEngine := { freeResult := none }

/-- Device info whose flag byte combines the WINK and CBOR bits. -/
def devInfoEx : NativeDevInfo :=
  { protocol := 2, major := 1, minor := 0, build := 0, flags := 5 }

/-!
Helper lemmas: the traced builder factors through the reference runner
`runCalls`, whose success and failure behaviour is characterized once and
for all by induction on the call list.
-/

/-- One traced setter call, dispatched on the call tag. -/
def oneCall (e : FidoEngine) (c : SetterCall) (a : NativeAssert) :
    FidoResult NativeAssert × List SetterCall :=
  if codeOf e c = FIDO_OK then (Except.ok (applyCall c a), [c])
  else (Except.error ⟨codeOf e c⟩, [c])

theorem oneCall_setRp (e : FidoEngine) (a : NativeAssert) (rp : String) :
    oneCall e (SetterCall.setRp rp) a = Assertion.set_relying_party_id e a rp := by
  simp [oneCall, Assertion.set_relying_party_id, codeOf, applyCall]

theorem oneCall_setClientDataHash (e : FidoEngine) (a : NativeAssert) (h : Bytes) :
    oneCall e (SetterCall.setClientDataHash h) a = Assertion.set_client_data_hash e a h := by
  simp [oneCall, Assertion.set_client_data_hash, codeOf, applyCall]

theorem oneCall_allowCred (e : FidoEngine) (a : NativeAssert) (id : Bytes) :
    oneCall e (SetterCall.allowCred id) a = Assertion.add_allowed_credential_id e a id := by
  simp [oneCall, Assertion.add_allowed_credential_id, codeOf, applyCall]

theorem oneCall_setOptions (e : FidoEngine) (a : NativeAssert) (o : AssertionOptions) :
    oneCall e
      (SetterCall.setOptions
        (AssertionOptions.contains o AssertionOptions.USER_PRESENCE)
        (AssertionOptions.contains o AssertionOptions.USER_VERIFICATION)) a
      = Assertion.set_options e a o := by
  simp [oneCall, Assertion.set_options, codeOf, applyCall]

theorem runCalls_nil (e : FidoEngine) (a : NativeAssert) :
    runCalls e [] a = (Except.ok a, []) := rfl

theorem runCalls_cons (e : FidoEngine) (c : SetterCall) (cs : List SetterCall)
    (a : NativeAssert) :
    runCalls e (c :: cs) a = trBind (oneCall e c a) (fun b => runCalls e cs b) := by
  by_cases hc : codeOf e c = FIDO_OK <;> simp [runCalls, oneCall, trBind, hc]

theorem trBind_ok_nil (a : NativeAssert)
    (f : NativeAssert → FidoResult NativeAssert × List SetterCall) :
    trBind (Except.ok a, []) f = f a := by
  simp [trBind]

theorem trBind_pure (r : FidoResult NativeAssert × List SetterCall) :
    trBind r (fun b => ((Except.ok b : FidoResult NativeAssert), ([] : List SetterCall))) = r := by
  rcases r with ⟨r1, t⟩
  cases r1 <;> simp [trBind]

theorem trBind_assoc (r : FidoResult NativeAssert × List SetterCall)
    (f g : NativeAssert → FidoResult NativeAssert × List SetterCall) :
    trBind (trBind r f) g = trBind r (fun a => trBind (f a) g) := by
  rcases r with ⟨r1, t⟩
  cases r1 with
  | error err => simp [trBind]
  | ok a =>
      rcases hfa : f a with ⟨f1, ft⟩
      cases f1 <;> simp [trBind, hfa, List.append_assoc]

theorem runCalls_append (e : FidoEngine) (l1 l2 : List SetterCall) (a : NativeAssert) :
    runCalls e (l1 ++ l2) a = trBind (runCalls e l1 a) (fun b => runCalls e l2 b) := by
  induction l1 generalizing a with
  | nil => simp [runCalls, trBind]
  | cons c cs ih =>
      simp only [List.cons_append, runCalls_cons, trBind_assoc]
      simp only [ih]

theorem addAllowedAll_eq_runCalls (e : FidoEngine) (ids : List Bytes) :
    ∀ a, addAllowedAll e ids a = runCalls e (ids.map SetterCall.allowCred) a := by
  induction ids with
  | nil => intro a; simp [addAllowedAll, runCalls]
  | cons id rest ih =>
      intro a
      have hfe : addAllowedAll e rest
          = (fun b => runCalls e (rest.map SetterCall.allowCred) b) := funext ih
      simp only [addAllowedAll, List.map_cons, runCalls_cons, oneCall_allowCred, hfe]

/-- `AssertionCreator::new` is exactly the reference runner applied to the
full call sequence determined by the creation data. -/
theorem new_eq_runCalls (e : FidoEngine) (a : NativeAssert) (d : AssertionCreationData) :
    AssertionCreator.new e a d = runCalls e (fullCalls d) a := by
  rcases d with ⟨ids?, hash, rp, opts⟩
  cases ids? with
  | none =>
      simp only [AssertionCreator.new, fullCalls, Option.getD_none, List.map_nil,
        List.nil_append, runCalls_cons, runCalls_nil, trBind_pure, trBind_ok_nil,
        oneCall_setRp, oneCall_setClientDataHash, oneCall_setOptions]
  | some ids =>
      simp only [AssertionCreator.new, fullCalls, Option.getD_some, runCalls_cons,
        runCalls_append, runCalls_nil, trBind_pure, oneCall_setRp,
        oneCall_setClientDataHash, oneCall_setOptions, addAllowedAll_eq_runCalls]

/-- Every call in the trace produced by the runner comes from the supplied
call list. -/
theorem mem_of_mem_runCalls_trace (e : FidoEngine) (l : List SetterCall) :
    ∀ a c, c ∈ (runCalls e l a).2 → c ∈ l := by
  induction l with
  | nil => intro a c hc; simp [runCalls] at hc
  | cons c0 cs ih =>
      intro a c hc
      by_cases h0 : codeOf e c0 = FIDO_OK
      · simp only [runCalls, h0, if_pos] at hc
        rcases List.mem_cons.mp hc with h | h
        · exact h ▸ List.mem_cons_self _ _
        · exact List.mem_cons_of_mem _ (ih (applyCall c0 a) c h)
      · simp only [runCalls, h0, if_neg, not_false_iff] at hc
        rcases List.mem_cons.mp hc with h | h
        · exact h ▸ List.mem_cons_self _ _
        · simp at h

/-- When every code is `FIDO_OK`, the runner applies every call in order
and returns the fully updated state together with the full trace. -/
theorem runCalls_ok_of_all (e : FidoEngine) (l : List SetterCall) :
    ∀ a, (∀ c ∈ l, codeOf e c = FIDO_OK) →
      runCalls e l a = (Except.ok (l.foldl (fun x c => applyCall c x) a), l) := by
  induction l with
  | nil => intro a _; simp [runCalls]
  | cons c cs ih =>
      intro a h
      have hc : codeOf e c = FIDO_OK := h c (List.mem_cons_self _ _)
      have hrest : ∀ x ∈ cs, codeOf e x = FIDO_OK :=
        fun x hx => h x (List.mem_cons_of_mem _ hx)
      simp [runCalls, hc, ih (applyCall c a) hrest]

/-- When the runner fails, it fails at the first call whose code is not
`FIDO_OK`: the trace is exactly the calls up to and including that one, the
returned error carries that call's raw code, and every earlier call
succeeded. -/
theorem runCalls_error_characterization (e : FidoEngine) (l : List SetterCall) :
    ∀ a err, (runCalls e l a).1 = Except.error err →
      ∃ k c, l.get? k = some c
        ∧ (runCalls e l a).2 = l.take (k + 1)
        ∧ codeOf e c ≠ FIDO_OK
        ∧ err = ⟨codeOf e c⟩
        ∧ ∀ j c2, j < k → l.get? j = some c2 → codeOf e c2 = FIDO_OK := by
  induction l with
  | nil => intro a err h; simp [runCalls] at h
  | cons c cs ih =>
      intro a err h
      by_cases hc : codeOf e c = FIDO_OK
      · simp only [runCalls, hc, if_pos] at h ⊢
        obtain ⟨k, c2, hget, htr, hne, herr, hprev⟩ := ih (applyCall c a) err h
        refine ⟨k + 1, c2, by simpa using hget, ?_, hne, herr, ?_⟩
        · simp [htr]
        · intro j c3 hj hget3
          cases j with
          | zero =>
              simp at hget3
              exact hget3 ▸ hc
          | succ j =>
              exact hprev j c3 (Nat.lt_of_succ_lt_succ hj) (by simpa using hget3)
      · simp only [runCalls, hc, if_neg, not_false_iff] at h ⊢
        refine ⟨0, c, rfl, by simp, hc, ?_, ?_⟩
        · cases h
          rfl
        · intro j c2 hj
          omega

/-- Folding the state updates of a run of allow-list calls appends the ids
to the handle's allow list, in list order. -/
theorem foldl_allowCreds (ids : List Bytes) :
    ∀ x : NativeAssert,
      (ids.map SetterCall.allowCred).foldl (fun y c => applyCall c y) x
        = { x with allowedCreds := x.allowedCreds ++ ids } := by
  induction ids with
  | nil => intro x; simp
  | cons id rest ih =>
      intro x
      simp only [List.map_cons, List.foldl_cons]
      rw [ih]
      simp [applyCall, List.append_assoc]

/-- The scan underlying `verify_one` reports `true` exactly when some index
in the scanned window verifies. -/
theorem verifyOneAux_true_iff (h : PopulatedAssert) (pk : PublicKey) :
    ∀ n i, (verifyOneAux h pk i n).1 = true
      ↔ ∃ j, j < n ∧ h.verifyCode pk (i + j) = FIDO_OK := by
  intro n
  induction n with
  | zero => intro i; simp [verifyOneAux]
  | succ n ih =>
      intro i
      by_cases hc : h.verifyCode pk i = FIDO_OK
      · simp only [verifyOneAux, hc, if_pos, true_iff]
        exact ⟨0, Nat.succ_pos n, by simpa using hc⟩
      · simp only [verifyOneAux, hc, if_neg, not_false_iff, ih]
        constructor
        · rintro ⟨j, hj, hcode⟩
          refine ⟨j + 1, by omega, ?_⟩
          have harith : i + (j + 1) = i + 1 + j := by omega
          rw [harith]
          exact hcode
        · rintro ⟨j, hj, hcode⟩
          cases j with
          | zero => exact absurd (by simpa using hcode) hc
          | succ j =>
              refine ⟨j, by omega, ?_⟩
              have harith : i + 1 + j = i + (j + 1) := by omega
              rw [harith]
              exact hcode

/-- Every index at which the scan underlying `verify_one` actually invoked
the engine lies in the scanned window and has no earlier success. -/
theorem verifyOneAux_calls_spec (h : PopulatedAssert) (pk : PublicKey) :
    ∀ n i j, j ∈ (verifyOneAux h pk i n).2 →
      i ≤ j ∧ j < i + n ∧ ∀ m, i ≤ m → m < j → h.verifyCode pk m ≠ FIDO_OK := by
  intro n
  induction n with
  | zero => intro i j hj; simp [verifyOneAux] at hj
  | succ n ih =>
      intro i j hj
      by_cases hc : h.verifyCode pk i = FIDO_OK
      · simp only [verifyOneAux, hc, if_pos, List.mem_singleton] at hj
        subst hj
        exact ⟨Nat.le_refl _, by omega, fun m him hmj => absurd hmj (by omega)⟩
      · simp only [verifyOneAux, hc, if_neg, not_false_iff, List.mem_cons] at hj
        rcases hj with hj | hj
        · subst hj
          exact ⟨Nat.le_refl _, by omega, fun m him hmj => absurd hmj (by omega)⟩
        · obtain ⟨hle, hlt, hall⟩ := ih (i + 1) j hj
          refine ⟨by omega, by omega, fun m him hmj => ?_⟩
          by_cases hm : m = i
          · subst hm
            exact hc
          · exact hall m (by omega) hmj

/-- When nothing verifies in the scanned window, the scan invokes the
engine at every index of the window, in order. -/
theorem verifyOneAux_calls_all_fail (h : PopulatedAssert) (pk : PublicKey) :
    ∀ n i, (∀ j, j < n → h.verifyCode pk (i + j) ≠ FIDO_OK) →
      (verifyOneAux h pk i n).2 = (List.range n).map (fun j => i + j) := by
  intro n
  induction n with
  | zero => intro i _; simp [verifyOneAux]
  | succ n ih =>
      intro i hfail
      have hc : h.verifyCode pk i ≠ FIDO_OK := by
        have := hfail 0 (Nat.succ_pos n)
        simpa using this
      have hrest : ∀ j, j < n → h.verifyCode pk (i + 1 + j) ≠ FIDO_OK := by
        intro j hj
        have harith : i + 1 + j = i + (j + 1) := by omega
        rw [harith]
        exact hfail (j + 1) (by omega)
      simp only [verifyOneAux, hc, if_neg, not_false_iff, ih (i + 1) hrest,
        List.range_succ_eq_map, List.map_cons, List.map_map, Nat.add_zero]
      have htail : List.map (fun j => i + 1 + j) (List.range n)
          = List.map ((fun j => i + j) ∘ Nat.succ) (List.range n) := by
        apply List.map_congr_left
        intro j _
        simp only [Function.comp_apply]
        omega
      rw [htail]

/-- C1: `AssertionCreator::new` applies the engine setters to the wrapped
assertion in exactly the order relying-party id, client-data hash, each
allowed credential id in list order, then option flags; when every call
succeeds the builder state is the full in-order application, and the first
failing setter stops construction, returns the engine's raw error code, and
no later setter call appears in the trace. -/
theorem new_applies_setters_in_order_and_short_circuits
    (e : FidoEngine) (a : NativeAssert) (d : AssertionCreationData) :
    ((∀ c ∈ fullCalls d, codeOf e c = FIDO_OK) →
        AssertionCreator.new e a d
          = (Except.ok ((fullCalls d).foldl (fun x c => applyCall c x) a), fullCalls d))
    ∧ (∀ err, (AssertionCreator.new e a d).1 = Except.error err →
        ∃ k c, (fullCalls d).get? k = some c
          ∧ (AssertionCreator.new e a d).2 = (fullCalls d).take (k + 1)
          ∧ codeOf e c ≠ FIDO_OK
          ∧ err = ⟨codeOf e c⟩
          ∧ ∀ j c2, j < k → (fullCalls d).get? j = some c2 → codeOf e c2 = FIDO_OK) := by
  constructor
  · intro hall
    rw [new_eq_runCalls]
    exact runCalls_ok_of_all e (fullCalls d) a hall
  · intro err herr
    rw [new_eq_runCalls] at herr
    rw [new_eq_runCalls]
    exact runCalls_error_characterization e (fullCalls d) a err herr

/-- Witness for C1: with an engine rejecting the client-data hash with raw
code 3, construction fails at the second call, the trace is exactly the
first two calls, and every earlier call succeeded. -/
theorem new_applies_setters_in_order_and_short_circuits_witness :
    ∃ k c, (fullCalls dataTwoCreds).get? k = some c
      ∧ (AssertionCreator.new engineHashFail NativeAssert.uninit dataTwoCreds).2
          = (fullCalls dataTwoCreds).take (k + 1)
      ∧ codeOf engineHashFail c ≠ FIDO_OK
      ∧ (⟨3⟩ : FidoError) = ⟨codeOf engineHashFail c⟩
      ∧ ∀ j c2, j < k → (fullCalls dataTwoCreds).get? j = some c2
          → codeOf engineHashFail c2 = FIDO_OK :=
  (new_applies_setters_in_order_and_short_circuits engineHashFail NativeAssert.uninit
    dataTwoCreds).2 ⟨3⟩ rfl

/-- C7: with an empty (or absent) allowed-credential-id list no
add-allowed-credential call is ever issued to the engine, and with a
two-entry list both entries are forwarded, in insertion order, between the
hash call and the options call. -/
theorem allowed_credential_list_forwarding
    (e : FidoEngine) (a : NativeAssert) (d : AssertionCreationData) :
    ((d.allowed_credential_ids = some [] ∨ d.allowed_credential_ids = none) →
        ∀ id, SetterCall.allowCred id ∉ (AssertionCreator.new e a d).2)
    ∧ (∀ id1 id2, d.allowed_credential_ids = some [id1, id2] →
        e.rpCode d.relying_party_id = FIDO_OK →
        e.clientDataHashCode d.client_data_hash = FIDO_OK →
        e.allowCredCode id1 = FIDO_OK →
        e.allowCredCode id2 = FIDO_OK →
        e.optionsCode
          (AssertionOptions.contains d.options AssertionOptions.USER_PRESENCE)
          (AssertionOptions.contains d.options AssertionOptions.USER_VERIFICATION)
          = FIDO_OK →
        (AssertionCreator.new e a d).2
          = [SetterCall.setRp d.relying_party_id,
             SetterCall.setClientDataHash d.client_data_hash,
             SetterCall.allowCred id1, SetterCall.allowCred id2,
             SetterCall.setOptions
               (AssertionOptions.contains d.options AssertionOptions.USER_PRESENCE)
               (AssertionOptions.contains d.options AssertionOptions.USER_VERIFICATION)]) := by
  constructor
  · intro hempty id hmem
    rw [new_eq_runCalls] at hmem
    have hin := mem_of_mem_runCalls_trace e (fullCalls d) a _ hmem
    rcases hempty with h | h <;> simp [fullCalls, h] at hin
  · intro id1 id2 hids h1 h2 h3 h4 h5
    have hfull : fullCalls d
        = [SetterCall.setRp d.relying_party_id,
           SetterCall.setClientDataHash d.client_data_hash,
           SetterCall.allowCred id1, SetterCall.allowCred id2,
           SetterCall.setOptions
             (AssertionOptions.contains d.options AssertionOptions.USER_PRESENCE)
             (AssertionOptions.contains d.options AssertionOptions.USER_VERIFICATION)] := by
      simp [fullCalls, hids]
    have hall : ∀ c ∈ fullCalls d, codeOf e c = FIDO_OK := by
      rw [hfull]
      intro c hc
      simp only [List.mem_cons, List.mem_singleton, List.not_mem_nil, or_false] at hc
      rcases hc with rfl | rfl | rfl | rfl | rfl <;>
        first | exact h1 | exact h2 | exact h3 | exact h4 | exact h5
    rw [new_eq_runCalls, runCalls_ok_of_all e (fullCalls d) a hall]
    simpa using hfull

/-- Witness for C7: with an all-accepting engine and a two-entry allow
list, the issued call trace is exactly the five calls in order. -/
theorem allowed_credential_list_forwarding_witness :
    (AssertionCreator.new engineOK NativeAssert.uninit dataTwoCreds).2
      = [SetterCall.setRp dataTwoCreds.relying_party_id,
         SetterCall.setClientDataHash dataTwoCreds.client_data_hash,
         SetterCall.allowCred [1], SetterCall.allowCred [2],
         SetterCall.setOptions
           (AssertionOptions.contains dataTwoCreds.options AssertionOptions.USER_PRESENCE)
           (AssertionOptions.contains dataTwoCreds.options AssertionOptions.USER_VERIFICATION)] :=
  (allowed_credential_list_forwarding engineOK NativeAssert.uninit dataTwoCreds).2
    [1] [2] rfl rfl rfl rfl rfl rfl
/-- C8: when every engine setter accepts its input, `AssertionCreator::new`
on a fresh handle succeeds and round-trips: the relying-party id, the
client-data hash, the allow list (in insertion order) and the two option
booleans derived from the USER_PRESENCE and USER_VERIFICATION flags are all
observable on the wrapped handle exactly as set, and the empty flag set is
accepted and forwarded as (false, false). -/
theorem builder_round_trips_all_set_values
    (e : FidoEngine) (d : AssertionCreationData)
    (hall : ∀ c ∈ fullCalls d, codeOf e c = FIDO_OK) :
    ∃ s, AssertionCreator.new e NativeAssert.uninit d = (Except.ok s, fullCalls d)
      ∧ s.rp = some d.relying_party_id
      ∧ s.clientDataHash = some d.client_data_hash
      ∧ s.allowedCreds = d.allowed_credential_ids.getD []
      ∧ s.options = some
          (AssertionOptions.contains d.options AssertionOptions.USER_PRESENCE,
           AssertionOptions.contains d.options AssertionOptions.USER_VERIFICATION)
      ∧ (d.options = AssertionOptions.empty → s.options = some (false, false)) := by
  have hfold : (fullCalls d).foldl (fun x c => applyCall c x) NativeAssert.uninit
      = { rp := some d.relying_party_id,
          clientDataHash := some d.client_data_hash,
          allowedCreds := d.allowed_credential_ids.getD [],
          options := some
            (AssertionOptions.contains d.options AssertionOptions.USER_PRESENCE,
             AssertionOptions.contains d.options AssertionOptions.USER_VERIFICATION) } := by
    simp only [fullCalls, List.foldl_cons, List.foldl_append, List.foldl_nil]
    rw [foldl_allowCreds]
    simp [applyCall, NativeAssert.uninit]
  refine ⟨{ rp := some d.relying_party_id,
            clientDataHash := some d.client_data_hash,
            allowedCreds := d.allowed_credential_ids.getD [],
            options := some
              (AssertionOptions.contains d.options AssertionOptions.USER_PRESENCE,
               AssertionOptions.contains d.options AssertionOptions.USER_VERIFICATION) },
          ?_, rfl, rfl, rfl, rfl, ?_⟩
  · rw [new_eq_runCalls, runCalls_ok_of_all e (fullCalls d) NativeAssert.uninit hall, hfold]
  · intro h0
    simp only [h0]
    decide

/-- Witness for C8: the all-accepting engine, an empty allow list and the
empty option set round-trip, the empty flag set being forwarded as
(false, false). -/
theorem builder_round_trips_all_set_values_witness :
    ∃ s, AssertionCreator.new engineOK NativeAssert.uninit dataNoCreds
        = (Except.ok s, fullCalls dataNoCreds)
      ∧ s.rp = some dataNoCreds.relying_party_id
      ∧ s.clientDataHash = some dataNoCreds.client_data_hash
      ∧ s.allowedCreds = dataNoCreds.allowed_credential_ids.getD []
      ∧ s.options = some
          (AssertionOptions.contains dataNoCreds.options AssertionOptions.USER_PRESENCE,
           AssertionOptions.contains dataNoCreds.options AssertionOptions.USER_VERIFICATION)
      ∧ (dataNoCreds.options = AssertionOptions.empty → s.options = some (false, false)) :=
  builder_round_trips_all_set_values engineOK dataNoCreds (by decide)

/-- C9: every recoverable operation of the core returns success exactly
when the engine returns `FIDO_OK`, and otherwise returns an error value
carrying the engine's raw code unchanged: this holds for each builder
setter and for the per-statement verification outcome. -/
theorem results_mirror_engine_codes
    (e : FidoEngine) (a : NativeAssert) (rp : String) (hash id : Bytes)
    (o : AssertionOptions) (h : PopulatedAssert) (pk : PublicKey) (i : Nat) :
    ((∃ s, (Assertion.set_relying_party_id e a rp).1 = Except.ok s)
        ↔ e.rpCode rp = FIDO_OK)
    ∧ (e.rpCode rp ≠ FIDO_OK →
        (Assertion.set_relying_party_id e a rp).1 = Except.error ⟨e.rpCode rp⟩)
    ∧ ((∃ s, (Assertion.set_client_data_hash e a hash).1 = Except.ok s)
        ↔ e.clientDataHashCode hash = FIDO_OK)
    ∧ (e.clientDataHashCode hash ≠ FIDO_OK →
        (Assertion.set_client_data_hash e a hash).1
          = Except.error ⟨e.clientDataHashCode hash⟩)
    ∧ ((∃ s, (Assertion.add_allowed_credential_id e a id).1 = Except.ok s)
        ↔ e.allowCredCode id = FIDO_OK)
    ∧ (e.allowCredCode id ≠ FIDO_OK →
        (Assertion.add_allowed_credential_id e a id).1
          = Except.error ⟨e.allowCredCode id⟩)
    ∧ ((∃ s, (Assertion.set_options e a o).1 = Except.ok s)
        ↔ e.optionsCode
            (AssertionOptions.contains o AssertionOptions.USER_PRESENCE)
            (AssertionOptions.contains o AssertionOptions.USER_VERIFICATION) = FIDO_OK)
    ∧ (e.optionsCode
          (AssertionOptions.contains o AssertionOptions.USER_PRESENCE)
          (AssertionOptions.contains o AssertionOptions.USER_VERIFICATION) ≠ FIDO_OK →
        (Assertion.set_options e a o).1
          = Except.error ⟨e.optionsCode
              (AssertionOptions.contains o AssertionOptions.USER_PRESENCE)
              (AssertionOptions.contains o AssertionOptions.USER_VERIFICATION)⟩)
    ∧ (verdict h pk i = Except.ok () ↔ h.verifyCode pk i = FIDO_OK)
    ∧ (h.verifyCode pk i ≠ FIDO_OK →
        verdict h pk i = Except.error ⟨h.verifyCode pk i⟩) := by
  refine ⟨?_, ?_, ?_, ?_, ?_, ?_, ?_, ?_, ?_, ?_⟩
  · by_cases hc : e.rpCode rp = FIDO_OK <;>
      simp [Assertion.set_relying_party_id, hc]
  · intro hc; simp [Assertion.set_relying_party_id, hc]
  · by_cases hc : e.clientDataHashCode hash = FIDO_OK <;>
      simp [Assertion.set_client_data_hash, hc]
  · intro hc; simp [Assertion.set_client_data_hash, hc]
  · by_cases hc : e.allowCredCode id = FIDO_OK <;>
      simp [Assertion.add_allowed_credential_id, hc]
  · intro hc; simp [Assertion.add_allowed_credential_id, hc]
  · by_cases hc : e.optionsCode
        (AssertionOptions.contains o AssertionOptions.USER_PRESENCE)
        (AssertionOptions.contains o AssertionOptions.USER_VERIFICATION) = FIDO_OK <;>
      simp [Assertion.set_options, hc]
  · intro hc; simp [Assertion.set_options, hc]
  · by_cases hc : h.verifyCode pk i = FIDO_OK <;> simp [verdict, hc]
  · intro hc; simp [verdict, hc]

/-- Witness for C9: an engine rejecting relying-party ids with raw code 7
yields exactly `Err(FidoError(7))` from the relying-party setter. -/
theorem results_mirror_engine_codes_witness :
    (Assertion.set_relying_party_id engineRpFail NativeAssert.uninit "example.com").1
      = Except.error ⟨7⟩ :=
  (results_mirror_engine_codes engineRpFail NativeAssert.uninit "example.com" [] [] 0
    popEmpty pkEx 0).2.1 (by decide)

/-- C2: on a populated assertion whose native handle reports N statements,
`iter` yields exactly N statements, and the item at index i is precisely
the per-index read of the native accessors at i — so the sequence is in
index order 0..N and, being a pure per-index re-read of the handle, every
invocation of `iter` yields the same N items. -/
theorem iter_yields_len_statements_in_index_order (h : PopulatedAssert) :
    (Assertion.iter h).length = Assertion.len h
    ∧ ∀ i, i < Assertion.len h →
        (Assertion.iter h).get? i = some (readStatement h i) := by
  constructor
  · simp [Assertion.iter]
  · intro i hi
    simp [Assertion.iter, List.get?_eq_getElem?, List.getElem?_map, List.getElem?_range hi]

/-- Witness for C2: on the two-statement assertion, item 1 is the
per-index read at index 1. -/
theorem iter_yields_len_statements_in_index_order_witness :
    (Assertion.iter popTwo).get? 1 = some (readStatement popTwo 1) :=
  (iter_yields_len_statements_in_index_order popTwo).2 1 (by decide)

/-- C3: `iter_verified` yields exactly N pairs, the pair at index i being
statement i together with the engine's verification outcome for index i;
in particular a failing verdict at any index (including 0) neither stops
nor skips the remaining pairs and is reported only inside that pair. -/
theorem iter_verified_pairs_every_statement_with_its_verdict
    (h : PopulatedAssert) (pk : PublicKey) :
    (Assertion.iter_verified h pk).length = Assertion.len h
    ∧ ∀ i, i < Assertion.len h →
        (Assertion.iter_verified h pk).get? i
          = some (readStatement h i, verdict h pk i) := by
  constructor
  · simp [Assertion.iter_verified, Assertion.iter]
  · intro i hi
    simp [Assertion.iter_verified, Assertion.iter, List.get?_eq_getElem?,
      List.getElem?_map, List.getElem?_enum, List.getElem?_range hi]

/-- Witness for C3: on the two-statement assertion whose statement 0 fails
verification, the pair at index 0 still exists and carries the failure. -/
theorem iter_verified_pairs_every_statement_with_its_verdict_witness :
    (Assertion.iter_verified popTwo pkEx).get? 0
      = some (readStatement popTwo 0, verdict popTwo pkEx 0) :=
  (iter_verified_pairs_every_statement_with_its_verdict popTwo pkEx).2 0 (by decide)

/-- C4: `verify_one` is true exactly when some statement index verifies
under the given key, and it short-circuits: every index at which the
engine's verification is actually invoked has no earlier verifying index,
so no verification call happens after the first success. -/
theorem verify_one_iff_exists_verified_and_short_circuits
    (h : PopulatedAssert) (pk : PublicKey) :
    (Assertion.verify_one h pk = true
      ↔ ∃ i, i < Assertion.len h ∧ h.verifyCode pk i = FIDO_OK)
    ∧ ∀ j ∈ Assertion.verify_one_calls h pk, ∀ m, m < j →
        h.verifyCode pk m ≠ FIDO_OK := by
  constructor
  · have hiff := verifyOneAux_true_iff h pk (Assertion.len h) 0
    simpa [Assertion.verify_one] using hiff
  · intro j hj m hm
    have hspec := verifyOneAux_calls_spec h pk (Assertion.len h) 0 j hj
    exact hspec.2.2 m (Nat.zero_le m) hm

/-- Witness for C4: on the two-statement assertion, index 1 is invoked and
indeed no index before it verifies. -/
theorem verify_one_iff_exists_verified_and_short_circuits_witness :
    popTwo.verifyCode pkEx 0 ≠ FIDO_OK :=
  (verify_one_iff_exists_verified_and_short_circuits popTwo pkEx).2 1 (by decide)
    0 (by decide)

/-- C10: on a populated assertion with zero statements, `verify_one` is
false for every key and no verification call is ever issued. -/
theorem verify_one_empty_assertion_false (h : PopulatedAssert) (pk : PublicKey)
    (hlen : Assertion.len h = 0) :
    Assertion.verify_one h pk = false ∧ Assertion.verify_one_calls h pk = [] := by
  unfold Assertion.verify_one Assertion.verify_one_calls
  rw [hlen]
  exact ⟨rfl, rfl⟩

/-- Witness for C10: the zero-statement assertion. -/
theorem verify_one_empty_assertion_false_witness :
    Assertion.verify_one popEmpty pkEx = false
      ∧ Assertion.verify_one_calls popEmpty pkEx = [] :=
  verify_one_empty_assertion_false popEmpty pkEx rfl

/-- C5: device teardown issues close then free, in that order, exactly
once each; the close code is observed and discarded, never affecting the
rest of teardown; after release both destructors assert the pointer is
null, a non-null pointer being a fatal panic; assertion teardown frees
exactly once with the same null assertion. -/
theorem drop_closes_then_frees_and_asserts_null
    (eDev : DevDropEngine) (eA : AssertDropEngine) :
    (Device.drop eDev).2 = [DevCall.close, DevCall.free]
    ∧ (∀ e2 : DevDropEngine, e2.freeResult = eDev.freeResult →
        Device.drop e2 = Device.drop eDev)
    ∧ ((Device.drop eDev).1 = DropOutcome.ok ↔ eDev.freeResult = none)
    ∧ ((Device.drop eDev).1 = DropOutcome.panic ↔ eDev.freeResult ≠ none)
    ∧ (Assertion.drop eA).2 = [AssertCall.assertFree]
    ∧ ((Assertion.drop eA).1 = DropOutcome.ok ↔ eA.freeResult = none)
    ∧ ((Assertion.drop eA).1 = DropOutcome.panic ↔ eA.freeResult ≠ none) := by
  refine ⟨rfl, ?_, ?_, ?_, rfl, ?_, ?_⟩
  · intro e2 h2
    simp [Device.drop, h2]
  · cases hf : eDev.freeResult <;> simp [Device.drop, hf]
  · cases hf : eDev.freeResult <;> simp [Device.drop, hf]
  · cases hf : eA.freeResult <;> simp [Assertion.drop, hf]
  · cases hf : eA.freeResult <;> simp [Assertion.drop, hf]

/-- Witness for C5: two teardown engines differing only in the close code
produce identical teardown behaviour — the close error is discarded. -/
theorem drop_closes_then_frees_and_asserts_null_witness :
    Device.drop devE2 = Device.drop devE1 :=
  (drop_closes_then_frees_and_asserts_null devE1 assertE1).2.1 devE2 rfl

set_option maxRecDepth 4096 in
/-- C6: `ctap_hid_info` succeeds exactly when the raw capability byte is a
combination of the WINK, CBOR and NMSG bits — any other bit is a fatal
panic — and on success the returned capability bits equal the raw byte,
with nothing masked or truncated. -/
theorem ctap_hid_info_decodes_known_capability_bits (d : NativeDevInfo)
    (hb : d.flags < 256) :
    ((∃ info, Device.ctap_hid_info d = some info)
      ↔ ∃ w c n : Bool, d.flags
          = cond w FIDO_CAP_WINK 0 + cond c FIDO_CAP_CBOR 0 + cond n FIDO_CAP_NMSG 0)
    ∧ ∀ info, Device.ctap_hid_info d = some info → info.capabilities.bits = d.flags := by
  constructor
  · have hred : (∃ info, Device.ctap_hid_info d = some info)
        ↔ d.flags &&& (FIDO_CAP_WINK ||| FIDO_CAP_CBOR ||| FIDO_CAP_NMSG) = d.flags := by
      unfold Device.ctap_hid_info CTAPHIDCapabilities.from_bits
      by_cases hm : d.flags &&& (FIDO_CAP_WINK ||| FIDO_CAP_CBOR ||| FIDO_CAP_NMSG)
          = d.flags
      · simp [hm]
      · simp [hm]
    rw [hred]
    have hdec : ∀ b, b < 256 →
        ((b &&& (FIDO_CAP_WINK ||| FIDO_CAP_CBOR ||| FIDO_CAP_NMSG) = b)
          ↔ ∃ w c n : Bool,
              b = cond w FIDO_CAP_WINK 0 + cond c FIDO_CAP_CBOR 0
                  + cond n FIDO_CAP_NMSG 0) := by decide
    exact hdec d.flags hb
  · intro info hinfo
    unfold Device.ctap_hid_info CTAPHIDCapabilities.from_bits at hinfo
    by_cases hm : d.flags &&& (FIDO_CAP_WINK ||| FIDO_CAP_CBOR ||| FIDO_CAP_NMSG)
        = d.flags
    · simp only [hm, if_pos] at hinfo
      cases hinfo
      rfl
    · simp [hm] at hinfo

/-- Witness for C6: flag byte 5 (WINK and CBOR set) decodes. -/
theorem ctap_hid_info_decodes_known_capability_bits_witness :
    (∃ info, Device.ctap_hid_info devInfoEx = some info)
      ↔ ∃ w c n : Bool, devInfoEx.flags
          = cond w FIDO_CAP_WINK 0 + cond c FIDO_CAP_CBOR 0 + cond n FIDO_CAP_NMSG 0 :=
  (ctap_hid_info_decodes_known_capability_bits devInfoEx (by decide)).1

end Fido
